import Mathlib

/-!
Shallow embedding of the box-annotation core of `draw_boxes.py` (repository
ScrapeCF): coordinate mapping between display space and original-image space,
box creation from drags, hit-testing, and JSON persistence of the box list.

Numbers: Python integers are modelled as `ℤ`, the real-valued scale factor and
intermediate quotients/products as `ℚ`.  Python 3's `round` (round half to
even, "banker's rounding") is modelled exactly by `pyRound`.
-/

/-- Python 3 `round` on a rational, returning an integer: round to the nearest
integer, ties going to the even integer. -/
def pyRound (q : ℚ) : ℤ :=
  if q - ⌊q⌋ < 1/2 then ⌊q⌋
  else if 1/2 < q - ⌊q⌋ then ⌊q⌋ + 1
  else if ⌊q⌋ % 2 = 0 then ⌊q⌋ else ⌊q⌋ + 1

theorem pyRound_sub_le (q : ℚ) : |(pyRound q : ℚ) - q| ≤ 1/2 := by
  have h0 : (⌊q⌋ : ℚ) ≤ q := Int.floor_le q
  have h1 : q < ⌊q⌋ + 1 := Int.lt_floor_add_one q
  unfold pyRound
  split_ifs with hlt hgt heven <;> rw [abs_le] <;> push_cast <;>
    constructor <;> linarith

theorem pyRound_intCast (n : ℤ) : pyRound (n : ℚ) = n := by
  simp [pyRound]

theorem pyRound_nonneg {q : ℚ} (h : 0 ≤ q) : 0 ≤ pyRound q := by
  have hf : 0 ≤ ⌊q⌋ := Int.floor_nonneg.mpr h
  unfold pyRound
  split_ifs <;> omega

/-- A box `[x, y, w, h]` as stored in `BoxEditor.boxes` (original-image
coordinates). -/
structure Box where
  x : ℤ
  y : ℤ
  w : ℤ
  h : ℤ
deriving Repr, DecidableEq

/-- `scale_for_display` (draw_boxes.py:37-47): the scale factor only; the
resized pixel array is irrelevant to the claims.  `h`/`w` are the image's
height and width, `max_dim` the display cap (default `MAX_DISPLAY_DIM`). -/
def scale_for_display (h w : ℕ) (max_dim : ℕ) : ℚ :=
  if max_dim < max h w then (max_dim : ℚ) / ((max h w : ℕ) : ℚ) else 1

/-- `MAX_DISPLAY_DIM` (draw_boxes.py:34). -/
def MAX_DISPLAY_DIM : ℕ := 1000

/-- `BoxEditor.disp_to_orig` (draw_boxes.py:77-86): display point to
original-image point.  Mouse coordinates are integers, so the source's initial
`int(round(pt_disp[i]))` is kept as `pyRound` of the integer cast. -/
def disp_to_orig (scale : ℚ) (w_orig h_orig : ℤ) (pt_disp : ℤ × ℤ) : ℤ × ℤ :=
  let x_disp : ℤ := pyRound (pt_disp.1 : ℚ)
  let y_disp : ℤ := pyRound (pt_disp.2 : ℚ)
  if scale = 0 then (x_disp, y_disp)
  else
    let x : ℤ := pyRound ((x_disp : ℚ) / scale)
    let y : ℤ := pyRound ((y_disp : ℚ) / scale)
    (max 0 (min (w_orig - 1) x), max 0 (min (h_orig - 1) y))

/-- `BoxEditor.orig_to_disp` (draw_boxes.py:88-95): original-image box to
display box, each of the four fields scaled and rounded independently. -/
def orig_to_disp (scale : ℚ) (box : Box) : Box :=
  { x := pyRound ((box.x : ℚ) * scale)
    y := pyRound ((box.y : ℚ) * scale)
    w := pyRound ((box.w : ℚ) * scale)
    h := pyRound ((box.h : ℚ) * scale) }

/-- `BoxEditor.add_box_from_disp` (draw_boxes.py:97-107): map the two drag
endpoints to image space, normalize to `x = min, y = min, w = |dx|, h = |dy|`,
and append unless `w == 0 or h == 0`. -/
def add_box_from_disp (scale : ℚ) (w_orig h_orig : ℤ) (boxes : List Box)
    (start_disp end_disp : ℤ × ℤ) : List Box :=
  let p0 := disp_to_orig scale w_orig h_orig start_disp
  let p1 := disp_to_orig scale w_orig h_orig end_disp
  let x := min p0.1 p1.1
  let y := min p0.2 p1.2
  let w := |p1.1 - p0.1|
  let h := |p1.2 - p0.2|
  if w = 0 ∨ h = 0 then boxes
  else boxes ++ [⟨x, y, w, h⟩]

/-- The containment test inlined in `BoxEditor.box_under_disp_point`
(draw_boxes.py:139): the display point lies in the closed rectangle
`[xd, xd+wd] x [yd, yd+hd]` of the box's display-space image. -/
def containsDisp (scale : ℚ) (b : Box) (pt : ℤ × ℤ) : Bool :=
  let r := orig_to_disp scale b
  decide (r.x ≤ pt.1) && decide (pt.1 ≤ r.x + r.w) &&
    decide (r.y ≤ pt.2) && decide (pt.2 ≤ r.y + r.h)

/-- Index-carrying loop of `BoxEditor.box_under_disp_point`
(draw_boxes.py:135-140): `enumerate` starting at `i`. -/
def box_under_aux (scale : ℚ) (pt : ℤ × ℤ) : List Box → ℕ → Option ℕ
  | [], _ => none
  | b :: rest, i =>
      if containsDisp scale b pt then some i
      else box_under_aux scale pt rest (i + 1)

/-- `BoxEditor.box_under_disp_point` (draw_boxes.py:133-141): index of the
first box whose display rectangle contains the point, else `none`. -/
def box_under_disp_point (scale : ℚ) (boxes : List Box) (pt : ℤ × ℤ) :
    Option ℕ :=
  box_under_aux scale pt boxes 0

/-!
Persistence layer.  `json.dump`/`json.load` are modelled by passing the JSON
tree itself: Python round-trips integers, strings, arrays and objects of this
shape exactly, so a written payload parses back to the same tree.
-/

/-- A parsed JSON value, as produced by `json.load`. -/
inductive JValue where
  | jnull : JValue
  | jbool : Bool → JValue
  | jnum : ℚ → JValue
  | jstr : String → JValue
  | jarr : List JValue → JValue
  | jobj : List (String × JValue) → JValue

/-- Key lookup in a JSON object, as `data["boxes"]` after an
`if "boxes" in data` guard. -/
def lookupField : List (String × JValue) → String → Option JValue
  | [], _ => none
  | (k, v) :: rest, key => if k = key then some v else lookupField rest key

/-- `BoxEditor.load_boxes` (draw_boxes.py:109-119), given the parsed file
content: if the top-level object has a `boxes` key, the box list is replaced
by that value verbatim (`self.boxes = data["boxes"]`); otherwise (missing key,
or any exception, modelled by the non-object case) `none`: the caller prints a
message and keeps the old list.  No exception escapes to the caller. -/
def load_boxes (data : JValue) : Option JValue :=
  match data with
  | .jobj fields => lookupField fields "boxes"
  | _ => none

/-- The `payload` dict built by `BoxEditor.save_boxes` (draw_boxes.py:123-127)
and written with `json.dump`. -/
def save_payload (image_path : String) (h_orig w_orig : ℤ) (boxesJson : JValue) :
    JValue :=
  .jobj [("image", .jstr image_path),
         ("shape", .jarr [.jnum h_orig, .jnum w_orig]),
         ("boxes", boxesJson)]

/-- JSON encoding of one in-memory box `[x, y, w, h]` (draw_boxes.py:65,106). -/
def encodeBox (b : Box) : JValue :=
  .jarr [.jnum b.x, .jnum b.y, .jnum b.w, .jnum b.h]

/-- JSON encoding of the in-memory box list. -/
def encodeBoxes (bs : List Box) : JValue :=
  .jarr (bs.map encodeBox)

/-- The fields of a `BoxEditor` instance touched by `save_boxes`. -/
structure EditorState where
  image_path : String
  h_orig : ℤ
  w_orig : ℤ
  boxes : List Box
  output_path : String
deriving Repr, DecidableEq

/-- `BoxEditor.save_boxes` (draw_boxes.py:121-131).  `write` models the file
system: it receives the target path and the payload and reports whether
`open`/`json.dump` succeeded.  On failure the exception propagates before
`self.output_path = path` runs, so the state is returned untouched; on success
only `output_path` changes.  The returned `Bool` is the success flag. -/
def save_boxes (st : EditorState) (path : Option String)
    (write : String → JValue → Bool) : EditorState × Bool :=
  let p := path.getD st.output_path
  let payload := save_payload st.image_path st.h_orig st.w_orig
    (encodeBoxes st.boxes)
  if write p payload then ({ st with output_path := p }, true)
  else (st, false)

/-!
Evaluation lemmas at the degenerate scale 0 and the identity scale 1, used to
compute the coordinate functions on concrete inputs (rational arithmetic is
not kernel-reducible, so witnesses go through these).
-/

theorem disp_to_orig_zero (w_orig h_orig : ℤ) (pt : ℤ × ℤ) :
    disp_to_orig 0 w_orig h_orig pt = pt := by
  simp [disp_to_orig, pyRound_intCast]

theorem disp_to_orig_one (w_orig h_orig : ℤ) (pt : ℤ × ℤ)
    (hx0 : 0 ≤ pt.1) (hx1 : pt.1 ≤ w_orig - 1)
    (hy0 : 0 ≤ pt.2) (hy1 : pt.2 ≤ h_orig - 1) :
    disp_to_orig 1 w_orig h_orig pt = pt := by
  simp only [disp_to_orig, pyRound_intCast, div_one,
    if_neg (one_ne_zero (α := ℚ))]
  have e1 : max 0 (min (w_orig - 1) pt.1) = pt.1 := by omega
  have e2 : max 0 (min (h_orig - 1) pt.2) = pt.2 := by omega
  rw [e1, e2]

theorem orig_to_disp_one (b : Box) : orig_to_disp 1 b = b := by
  cases b
  simp [orig_to_disp, pyRound_intCast]

/-!
Theorems for the claims.
-/

/-- C2: `endDrag` maps both drag endpoints to image space, computes the
normalized rectangle `x = min, y = min, w = |dx|, h = |dy|`, appends it only
when `w > 0` and `h > 0`, never appends a box with `w ≤ 0` or `h ≤ 0`, and a
degenerate drag (equal endpoints) leaves the box list unchanged. -/
theorem endDrag_normalizes_and_filters (scale : ℚ) (w_orig h_orig : ℤ)
    (boxes : List Box) (sd ed : ℤ × ℤ) :
    (add_box_from_disp scale w_orig h_orig boxes sd ed =
      if 0 < |(disp_to_orig scale w_orig h_orig ed).1 -
              (disp_to_orig scale w_orig h_orig sd).1| ∧
         0 < |(disp_to_orig scale w_orig h_orig ed).2 -
              (disp_to_orig scale w_orig h_orig sd).2| then
        boxes ++ [⟨min (disp_to_orig scale w_orig h_orig sd).1
                       (disp_to_orig scale w_orig h_orig ed).1,
                   min (disp_to_orig scale w_orig h_orig sd).2
                       (disp_to_orig scale w_orig h_orig ed).2,
                   |(disp_to_orig scale w_orig h_orig ed).1 -
                    (disp_to_orig scale w_orig h_orig sd).1|,
                   |(disp_to_orig scale w_orig h_orig ed).2 -
                    (disp_to_orig scale w_orig h_orig sd).2|⟩]
      else boxes) ∧
    (∀ b ∈ add_box_from_disp scale w_orig h_orig boxes sd ed,
      b ∈ boxes ∨ (0 < b.w ∧ 0 < b.h)) ∧
    add_box_from_disp scale w_orig h_orig boxes sd sd = boxes := by
  have ha : (0:ℤ) ≤ |(disp_to_orig scale w_orig h_orig ed).1 -
      (disp_to_orig scale w_orig h_orig sd).1| := abs_nonneg _
  have hb : (0:ℤ) ≤ |(disp_to_orig scale w_orig h_orig ed).2 -
      (disp_to_orig scale w_orig h_orig sd).2| := abs_nonneg _
  refine ⟨?_, ?_, ?_⟩
  · simp only [add_box_from_disp]
    split_ifs with h1 h2 h2 <;> first | rfl | omega
  · intro b hbmem
    simp only [add_box_from_disp] at hbmem
    split_ifs at hbmem with h1
    · exact Or.inl hbmem
    · rcases List.mem_append.mp hbmem with hmem | hmem
      · exact Or.inl hmem
      · right
        rw [List.mem_singleton] at hmem
        subst hmem
        dsimp only
        omega
  · simp [add_box_from_disp]

/-- C6: `toImage` divides both coordinates by the scale, rounds each to the
nearest integer, and clamps each axis independently to `[0, boundDim - 1]`
(width for x, height for y); when the scale is 0 it returns the input point
unchanged. -/
theorem toImage_divides_rounds_clamps (scale : ℚ) (w_orig h_orig : ℤ)
    (pt : ℤ × ℤ) :
    (scale ≠ 0 → disp_to_orig scale w_orig h_orig pt =
      (max 0 (min (w_orig - 1) (pyRound ((pt.1 : ℚ) / scale))),
       max 0 (min (h_orig - 1) (pyRound ((pt.2 : ℚ) / scale))))) ∧
    (scale = 0 → disp_to_orig scale w_orig h_orig pt = pt) := by
  constructor <;> intro h <;> simp [disp_to_orig, h, pyRound_intCast]

/-- C6 witness: both branches of `toImage_divides_rounds_clamps` at concrete
inputs. -/
theorem toImage_divides_rounds_clamps_witness :
    disp_to_orig (1/2) 10 10 (5, 7) =
      (max 0 (min (10 - 1) (pyRound ((5 : ℚ) / (1/2)))),
       max 0 (min (10 - 1) (pyRound ((7 : ℚ) / (1/2))))) ∧
    disp_to_orig 0 10 10 (5, 7) = (5, 7) :=
  ⟨(toImage_divides_rounds_clamps (1/2) 10 10 (5, 7)).1 (ne_of_gt one_half_pos),
   (toImage_divides_rounds_clamps 0 10 10 (5, 7)).2 rfl⟩

/-- C7: for positive image dimensions the display scale is
`min 1 (C / maxDim)`; when `maxDim ≤ C` the scale is exactly 1 and display
space coincides with image space (`orig_to_disp` is the identity, and
`disp_to_orig` is the identity on in-bounds points). -/
theorem scale_is_min_one_cap (h w C : ℕ) (hh : 0 < h) (hw : 0 < w) :
    scale_for_display h w C = min 1 ((C : ℚ) / ((max h w : ℕ) : ℚ)) ∧
    (max h w ≤ C → scale_for_display h w C = 1) ∧
    (max h w ≤ C → ∀ b : Box, orig_to_disp (scale_for_display h w C) b = b) ∧
    (max h w ≤ C → ∀ pt : ℤ × ℤ, 0 ≤ pt.1 → pt.1 ≤ (w : ℤ) - 1 →
      0 ≤ pt.2 → pt.2 ≤ (h : ℤ) - 1 →
      disp_to_orig (scale_for_display h w C) (w : ℤ) (h : ℤ) pt = pt) := by
  have hm : (0:ℚ) < ((max h w : ℕ) : ℚ) := by
    have : 0 < max h w := lt_max_of_lt_left hh
    exact_mod_cast this
  have hone : ∀ hc : max h w ≤ C, scale_for_display h w C = 1 := by
    intro hc
    simp [scale_for_display, not_lt.mpr hc]
  refine ⟨?_, hone, ?_, ?_⟩
  · by_cases hc : C < max h w
    · have hlt : (C : ℚ) / ((max h w : ℕ) : ℚ) < 1 := by
        rw [div_lt_one hm]
        exact_mod_cast hc
      rw [scale_for_display, if_pos hc, min_eq_right hlt.le]
    · have hge : (1:ℚ) ≤ (C : ℚ) / ((max h w : ℕ) : ℚ) := by
        rw [le_div_iff₀ hm, one_mul]
        exact_mod_cast not_lt.mp hc
      rw [scale_for_display, if_neg hc, min_eq_left hge]
  · intro hc b
    rw [hone hc]
    cases b
    simp [orig_to_disp, pyRound_intCast]
  · intro hc pt hx0 hx1 hy0 hy1
    rw [hone hc]
    have h1 : (1:ℚ) ≠ 0 := one_ne_zero
    simp only [disp_to_orig, if_neg h1, pyRound_intCast, div_one]
    have e1 : max 0 (min ((w : ℤ) - 1) pt.1) = pt.1 := by omega
    have e2 : max 0 (min ((h : ℤ) - 1) pt.2) = pt.2 := by omega
    rw [e1, e2]

/-- C7 witness: `scale_is_min_one_cap` at a 500 x 800 image with cap 1000. -/
theorem scale_is_min_one_cap_witness :
    scale_for_display 500 800 1000 =
      min 1 ((1000 : ℚ) / ((max 500 800 : ℕ) : ℚ)) ∧
    scale_for_display 500 800 1000 = 1 :=
  ⟨(scale_is_min_one_cap 500 800 1000 (by norm_num) (by norm_num)).1,
   (scale_is_min_one_cap 500 800 1000 (by norm_num) (by norm_num)).2.1
     (by norm_num)⟩

/-- C9: when a save fails (the write raises), the in-memory box list after the
failed save is exactly the box list before it. -/
theorem save_fail_preserves_boxes (st : EditorState) (path : Option String)
    (write : String → JValue → Bool)
    (hfail : (save_boxes st path write).2 = false) :
    (save_boxes st path write).1.boxes = st.boxes := by
  by_cases hw : write (path.getD st.output_path)
      (save_payload st.image_path st.h_orig st.w_orig (encodeBoxes st.boxes)) = true
  · simp [save_boxes, hw] at hfail
  · rw [Bool.not_eq_true] at hw
    simp [save_boxes, hw]

/-- C9 witness: `save_fail_preserves_boxes` for a write that always fails. -/
theorem save_fail_preserves_boxes_witness :
    ((save_boxes ⟨"img.png", 20, 30, [⟨1, 2, 3, 4⟩], "out.json"⟩ none
        (fun _ _ => false)).2 = false) ∧
    (save_boxes ⟨"img.png", 20, 30, [⟨1, 2, 3, 4⟩], "out.json"⟩ none
        (fun _ _ => false)).1.boxes = [⟨1, 2, 3, 4⟩] :=
  ⟨rfl, save_fail_preserves_boxes ⟨"img.png", 20, 30, [⟨1, 2, 3, 4⟩], "out.json"⟩
    none (fun _ _ => false) rfl⟩

/-- C2 witness: `endDrag_normalizes_and_filters` at concrete drags — a
non-degenerate drag appends a box with positive width and height, and a
degenerate drag leaves the list unchanged. -/
theorem endDrag_normalizes_and_filters_witness :
    ((⟨1, 1, 2, 3⟩ : Box) ∈ ([] : List Box) ∨
      (0 < (⟨1, 1, 2, 3⟩ : Box).w ∧ 0 < (⟨1, 1, 2, 3⟩ : Box).h)) ∧
    add_box_from_disp 0 10 10 [] (2, 2) (2, 2) = [] :=
  ⟨(endDrag_normalizes_and_filters 0 10 10 [] (1, 1) (3, 4)).2.1
      ⟨1, 1, 2, 3⟩ (by simp only [add_box_from_disp, disp_to_orig_zero]; decide),
   (endDrag_normalizes_and_filters 0 10 10 [] (2, 2) (2, 2)).2.2⟩

theorem encodeBox_injective : Function.Injective encodeBox := by
  intro a b hab
  cases a
  cases b
  simp only [encodeBox, JValue.jarr.injEq, List.cons.injEq, and_true,
    JValue.jnum.injEq, Int.cast_inj] at hab
  obtain ⟨h1, h2, h3, h4⟩ := hab
  simp_all

/-- C5: saving a session writes the in-memory box list verbatim into the
payload's `boxes` field, and loading the written file back yields exactly that
list, element for element, with no filtering or deduplication. -/
theorem save_then_load_roundtrip (img : String) (h w : ℤ) (bs : List Box) :
    load_boxes (save_payload img h w (encodeBoxes bs)) = some (encodeBoxes bs) ∧
    ∀ bs' : List Box, encodeBoxes bs = encodeBoxes bs' → bs = bs' := by
  constructor
  · simp [load_boxes, save_payload, lookupField]
  · intro bs' hb
    simp only [encodeBoxes, JValue.jarr.injEq] at hb
    exact (List.map_injective_iff.mpr encodeBox_injective) hb

/-- C5 witness: `save_then_load_roundtrip` at the spec's example list
`[[10,20,30,40],[5,5,5,5]]`. -/
theorem save_then_load_roundtrip_witness :
    load_boxes (save_payload "img.jpg" 100 200
        (encodeBoxes [⟨10, 20, 30, 40⟩, ⟨5, 5, 5, 5⟩])) =
      some (encodeBoxes [⟨10, 20, 30, 40⟩, ⟨5, 5, 5, 5⟩]) ∧
    ([⟨10, 20, 30, 40⟩, ⟨5, 5, 5, 5⟩] : List Box) =
      [⟨10, 20, 30, 40⟩, ⟨5, 5, 5, 5⟩] :=
  ⟨(save_then_load_roundtrip "img.jpg" 100 200
      [⟨10, 20, 30, 40⟩, ⟨5, 5, 5, 5⟩]).1,
   (save_then_load_roundtrip "img.jpg" 100 200
      [⟨10, 20, 30, 40⟩, ⟨5, 5, 5, 5⟩]).2 _ rfl⟩

/-- C1 counterexample: a file whose `boxes` array holds one well-formed entry
`[1,2,3,4]` and one malformed entry `["a",1,2,3]` loads as the full
two-element array — the malformed entry is NOT dropped, so the result is not
the one-element list the claim requires. -/
theorem load_keeps_malformed_counterexample :
    load_boxes (.jobj [("boxes", .jarr
        [.jarr [.jnum 1, .jnum 2, .jnum 3, .jnum 4],
         .jarr [.jstr "a", .jnum 1, .jnum 2, .jnum 3]])]) =
      some (.jarr [.jarr [.jnum 1, .jnum 2, .jnum 3, .jnum 4],
                   .jarr [.jstr "a", .jnum 1, .jnum 2, .jnum 3]]) ∧
    load_boxes (.jobj [("boxes", .jarr
        [.jarr [.jnum 1, .jnum 2, .jnum 3, .jnum 4],
         .jarr [.jstr "a", .jnum 1, .jnum 2, .jnum 3]])]) ≠
      some (.jarr [.jarr [.jnum 1, .jnum 2, .jnum 3, .jnum 4]]) := by
  constructor
  · simp [load_boxes, lookupField]
  · simp [load_boxes, lookupField]

/-- C1 amended: `load_boxes` performs no per-entry validation — whenever the
parsed file is an object carrying a `boxes` key, the box list is replaced by
that key's value verbatim, malformed entries included, and no error reaches
the caller. -/
theorem load_boxes_verbatim (v : JValue) (rest : List (String × JValue)) :
    load_boxes (.jobj (("boxes", v) :: rest)) = some v := by
  simp [load_boxes, lookupField]

/-- C10: the containment test of `hitTest` is closed on all four edges — a
point exactly on the right edge (or bottom edge) of a box's display rectangle,
within the closed range of the other axis, is reported as contained, and a
contained point on the first box of the list resolves to that first box's
index. -/
theorem hit_test_closed_edges (scale : ℚ) (b : Box) (pt : ℤ × ℤ)
    (hw : 0 ≤ b.w) (hh : 0 ≤ b.h) (hs : 0 ≤ scale) :
    ((pt.1 = (orig_to_disp scale b).x + (orig_to_disp scale b).w →
        (orig_to_disp scale b).y ≤ pt.2 →
        pt.2 ≤ (orig_to_disp scale b).y + (orig_to_disp scale b).h →
        containsDisp scale b pt = true) ∧
     (pt.2 = (orig_to_disp scale b).y + (orig_to_disp scale b).h →
        (orig_to_disp scale b).x ≤ pt.1 →
        pt.1 ≤ (orig_to_disp scale b).x + (orig_to_disp scale b).w →
        containsDisp scale b pt = true)) ∧
    (∀ rest : List Box, containsDisp scale b pt = true →
      box_under_disp_point scale (b :: rest) pt = some 0) := by
  have hwd : 0 ≤ (orig_to_disp scale b).w :=
    pyRound_nonneg (mul_nonneg (by exact_mod_cast hw) hs)
  have hhd : 0 ≤ (orig_to_disp scale b).h :=
    pyRound_nonneg (mul_nonneg (by exact_mod_cast hh) hs)
  refine ⟨⟨?_, ?_⟩, ?_⟩
  · intro he hy1 hy2
    simp only [containsDisp, Bool.and_eq_true, decide_eq_true_eq]
    omega
  · intro he hx1 hx2
    simp only [containsDisp, Bool.and_eq_true, decide_eq_true_eq]
    omega
  · intro rest hc
    simp [box_under_disp_point, box_under_aux, hc]

/-- C10 witness: point `(2,1)` lies on the shared border of the adjacent boxes
`[0,0,2,2]` and `[2,0,2,2]` at scale 1; it is contained in the first box (its
right edge) and hit-testing the two-box list resolves to index 0. -/
theorem hit_test_closed_edges_witness :
    containsDisp 1 ⟨0, 0, 2, 2⟩ (2, 1) = true ∧
    box_under_disp_point 1 [⟨0, 0, 2, 2⟩, ⟨2, 0, 2, 2⟩] (2, 1) = some 0 :=
  ⟨(hit_test_closed_edges 1 ⟨0, 0, 2, 2⟩ (2, 1) (by decide) (by decide)
      (by decide)).1.1 (by simp only [orig_to_disp_one]; decide)
      (by simp only [orig_to_disp_one]; decide)
      (by simp only [orig_to_disp_one]; decide),
   (hit_test_closed_edges 1 ⟨0, 0, 2, 2⟩ (2, 1) (by decide) (by decide)
      (by decide)).2 [⟨2, 0, 2, 2⟩]
     ((hit_test_closed_edges 1 ⟨0, 0, 2, 2⟩ (2, 1) (by decide) (by decide)
      (by decide)).1.1 (by simp only [orig_to_disp_one]; decide)
      (by simp only [orig_to_disp_one]; decide)
      (by simp only [orig_to_disp_one]; decide))⟩

theorem clamp_abs_le_one {lo hi v x : ℤ} (hlo : lo ≤ x) (hhi : x ≤ hi)
    (h : |v - x| ≤ 1) : |max lo (min hi v) - x| ≤ 1 := by
  rw [abs_le] at h ⊢
  omega

theorem pyRound_div_roundtrip (s : ℚ) (hs : 1/2 ≤ s) (x : ℤ) :
    |pyRound ((pyRound ((x : ℚ) * s) : ℚ) / s) - x| ≤ 1 := by
  have hs0 : (0 : ℚ) < s := by linarith
  have h1 : |(pyRound ((x : ℚ) * s) : ℚ) - (x : ℚ) * s| ≤ 1/2 := pyRound_sub_le _
  have h2 : |(pyRound ((x : ℚ) * s) : ℚ) / s - x| ≤ 1 := by
    have he : (pyRound ((x : ℚ) * s) : ℚ) / s - x =
        ((pyRound ((x : ℚ) * s) : ℚ) - (x : ℚ) * s) / s := by
      field_simp
      ring
    rw [he, abs_div, abs_of_pos hs0, div_le_one hs0]
    linarith
  have h3 : |(pyRound ((pyRound ((x : ℚ) * s) : ℚ) / s) : ℚ) -
      (pyRound ((x : ℚ) * s) : ℚ) / s| ≤ 1/2 := pyRound_sub_le _
  have h4 : |(pyRound ((pyRound ((x : ℚ) * s) : ℚ) / s) : ℚ) - (x : ℚ)| ≤ 3/2 := by
    have := abs_add ((pyRound ((pyRound ((x : ℚ) * s) : ℚ) / s) : ℚ) -
        (pyRound ((x : ℚ) * s) : ℚ) / s) ((pyRound ((x : ℚ) * s) : ℚ) / s - x)
    have he : (pyRound ((pyRound ((x : ℚ) * s) : ℚ) / s) : ℚ) -
        (pyRound ((x : ℚ) * s) : ℚ) / s + ((pyRound ((x : ℚ) * s) : ℚ) / s - x) =
        (pyRound ((pyRound ((x : ℚ) * s) : ℚ) / s) : ℚ) - (x : ℚ) := by ring
    rw [he] at this
    linarith
  by_contra hcon
  push_neg at hcon
  have h5 : (2 : ℤ) ≤ |pyRound ((pyRound ((x : ℚ) * s) : ℚ) / s) - x| := hcon
  have h6 : ((2 : ℤ) : ℚ) ≤
      ((|pyRound ((pyRound ((x : ℚ) * s) : ℚ) / s) - x| : ℤ) : ℚ) := by
    exact_mod_cast h5
  rw [Int.cast_abs] at h6
  push_cast at h6
  linarith [h4, h6]

/-- C3 counterexample: the claim quantifies over every scale in `(0,1]`, but at
scale `1/4` (a 4000-pixel image under the 1000-pixel display cap) the
in-bounds image point `(2,2)` maps to display `(0,0)` and back to `(0,0)` — an
error of 2 pixels per axis, outside the claimed ±1. -/
theorem roundtrip_pm_one_counterexample :
    ((0 : ℚ) < 1/4 ∧ (1/4 : ℚ) ≤ 1) ∧
    ((0 : ℤ) ≤ 2 ∧ (2 : ℤ) ≤ 4000 - 1) ∧
    orig_to_disp (1/4) ⟨2, 2, 0, 0⟩ = ⟨0, 0, 0, 0⟩ ∧
    disp_to_orig (1/4) 4000 4000
      ((orig_to_disp (1/4) ⟨2, 2, 0, 0⟩).x,
       (orig_to_disp (1/4) ⟨2, 2, 0, 0⟩).y) = (0, 0) ∧
    ¬(|(0 : ℤ) - 2| ≤ 1) := by
  have hq0 : pyRound (0 : ℚ) = 0 := by simpa using pyRound_intCast 0
  have hhalf : pyRound (1/2 : ℚ) = 0 := by
    have hf : ⌊(1/2 : ℚ)⌋ = 0 := by
      rw [Int.floor_eq_iff]
      norm_num
    norm_num [pyRound, hf]
  have hx : (((2 : ℤ) : ℚ) * (1/4)) = 1/2 := by norm_num
  have hy0 : (((0 : ℤ) : ℚ) * (1/4)) = 0 := by norm_num
  have hod : orig_to_disp (1/4) ⟨2, 2, 0, 0⟩ = ⟨0, 0, 0, 0⟩ := by
    simp only [orig_to_disp, hx, hy0, hhalf, hq0]
  have hdo : disp_to_orig (1/4) 4000 4000 (0, 0) = (0, 0) := by
    have hs : (1/4 : ℚ) ≠ 0 := by norm_num
    simp only [disp_to_orig, if_neg hs]
    norm_num [hq0, pyRound_intCast]
  refine ⟨⟨by norm_num, by norm_num⟩, ⟨by norm_num, by norm_num⟩, hod, ?_, by decide⟩
  rw [hod]
  exact hdo

/-- C3 amended: the ±1 round-trip recovery holds for every scale in `[1/2, 1]`
(for smaller scales the rounding error can exceed one pixel, see the
counterexample): converting an in-bounds image point to display space and back
recovers it to within ±1 pixel on each axis. -/
theorem roundtrip_pm_one (scale : ℚ) (hs : 1/2 ≤ scale) (hs1 : scale ≤ 1)
    (w_orig h_orig px py : ℤ) (hx0 : 0 ≤ px) (hx1 : px ≤ w_orig - 1)
    (hy0 : 0 ≤ py) (hy1 : py ≤ h_orig - 1) :
    |(disp_to_orig scale w_orig h_orig
        ((orig_to_disp scale ⟨px, py, 0, 0⟩).x,
         (orig_to_disp scale ⟨px, py, 0, 0⟩).y)).1 - px| ≤ 1 ∧
    |(disp_to_orig scale w_orig h_orig
        ((orig_to_disp scale ⟨px, py, 0, 0⟩).x,
         (orig_to_disp scale ⟨px, py, 0, 0⟩).y)).2 - py| ≤ 1 := by
  have hsne : scale ≠ 0 := by
    intro h
    rw [h] at hs
    linarith
  simp only [disp_to_orig, orig_to_disp, if_neg hsne, pyRound_intCast]
  constructor
  · exact clamp_abs_le_one hx0 hx1 (pyRound_div_roundtrip scale hs px)
  · exact clamp_abs_le_one hy0 hy1 (pyRound_div_roundtrip scale hs py)

/-- C3 amended witness: `roundtrip_pm_one` at scale 1 on the point `(5,7)` of
a 10 x 10 image. -/
theorem roundtrip_pm_one_witness :
    |(disp_to_orig 1 10 10
        ((orig_to_disp 1 ⟨5, 7, 0, 0⟩).x,
         (orig_to_disp 1 ⟨5, 7, 0, 0⟩).y)).1 - 5| ≤ 1 ∧
    |(disp_to_orig 1 10 10
        ((orig_to_disp 1 ⟨5, 7, 0, 0⟩).x,
         (orig_to_disp 1 ⟨5, 7, 0, 0⟩).y)).2 - 7| ≤ 1 :=
  roundtrip_pm_one 1 (by norm_num) le_rfl 10 10 5 7
    (by decide) (by decide) (by decide) (by decide)

theorem box_under_aux_shift (scale : ℚ) (pt : ℤ × ℤ) (bs : List Box) (k : ℕ) :
    box_under_aux scale pt bs k = (box_under_aux scale pt bs 0).map (· + k) := by
  induction bs generalizing k with
  | nil => simp [box_under_aux]
  | cons b rest ih =>
    by_cases hc : containsDisp scale b pt
    · simp [box_under_aux, hc]
    · simp only [box_under_aux, hc, if_false, Bool.false_eq_true]
      rw [ih (k + 1), ih 1, Option.map_map]
      congr 1
      funext n
      simp only [Function.comp_apply]
      omega

theorem box_under_some_iff (scale : ℚ) (pt : ℤ × ℤ) :
    ∀ (bs : List Box) (i : ℕ),
      box_under_disp_point scale bs pt = some i ↔
        ∃ hi : i < bs.length,
          containsDisp scale (bs.get ⟨i, hi⟩) pt = true ∧
          ∀ b' ∈ bs.take i, containsDisp scale b' pt = false := by
  intro bs
  induction bs with
  | nil => intro i; simp [box_under_disp_point, box_under_aux]
  | cons b rest ih =>
    intro i
    by_cases hc : containsDisp scale b pt
    · simp only [box_under_disp_point, box_under_aux, hc, if_true]
      constructor
      · intro h
        have hi0 : i = 0 := by
          have := Option.some.inj h
          omega
        subst hi0
        exact ⟨by simp, by simpa using hc, by simp⟩
      · rintro ⟨hi, hcont, hfirst⟩
        cases i with
        | zero => rfl
        | succ i' =>
          have hb : b ∈ (b :: rest).take (i' + 1) := by
            simp [List.take_succ_cons]
          have := hfirst b hb
          rw [this] at hc
          cases hc
    · have hstep : box_under_disp_point scale (b :: rest) pt =
          (box_under_disp_point scale rest pt).map (· + 1) := by
        simp only [box_under_disp_point, box_under_aux, hc, if_false,
          Bool.false_eq_true]
        exact box_under_aux_shift scale pt rest 1
      rw [hstep]
      cases i with
      | zero =>
        constructor
        · intro h
          rcases Option.map_eq_some'.mp h with ⟨n, _, hn⟩
          omega
        · rintro ⟨hi, hcont, _⟩
          simp only [List.get] at hcont
          exact absurd hcont hc
      | succ i' =>
        constructor
        · intro h
          rcases Option.map_eq_some'.mp h with ⟨n, hn, hadd⟩
          have hn' : n = i' := by omega
          subst hn'
          rcases (ih n).mp hn with ⟨hi, hcont, hfirst⟩
          refine ⟨by simpa using Nat.succ_lt_succ hi, by simpa using hcont, ?_⟩
          intro b' hb'
          rw [List.take_succ_cons] at hb'
          rcases List.mem_cons.mp hb' with hb' | hb'
          · subst hb'
            exact Bool.not_eq_true _ ▸ (by simpa using hc)
          · exact hfirst b' hb'
        · rintro ⟨hi, hcont, hfirst⟩
          have hi' : i' < rest.length := by simpa using Nat.lt_of_succ_lt_succ hi
          have hcont' : containsDisp scale (rest.get ⟨i', hi'⟩) pt = true := by
            simpa using hcont
          have hfirst' : ∀ b' ∈ rest.take i', containsDisp scale b' pt = false := by
            intro b' hb'
            exact hfirst b' (by rw [List.take_succ_cons]; exact List.mem_cons_of_mem b hb')
          have := (ih i').mpr ⟨hi', hcont', hfirst'⟩
          rw [this]
          rfl

theorem box_under_none_iff (scale : ℚ) (pt : ℤ × ℤ) :
    ∀ bs : List Box,
      box_under_disp_point scale bs pt = none ↔
        ∀ b ∈ bs, containsDisp scale b pt = false := by
  intro bs
  induction bs with
  | nil => simp [box_under_disp_point, box_under_aux]
  | cons b rest ih =>
    by_cases hc : containsDisp scale b pt
    · simp [box_under_disp_point, box_under_aux, hc]
    · have hstep : box_under_disp_point scale (b :: rest) pt =
          (box_under_disp_point scale rest pt).map (· + 1) := by
        simp only [box_under_disp_point, box_under_aux, hc, if_false,
          Bool.false_eq_true]
        exact box_under_aux_shift scale pt rest 1
      rw [hstep]
      simp only [Option.map_eq_none', List.mem_cons]
      rw [ih]
      constructor
      · intro h b' hb'
        rcases hb' with hb' | hb'
        · subst hb'
          exact Bool.not_eq_true _ ▸ (by simpa using hc)
        · exact h b' hb'
      · intro h b' hb'
        exact h b' (Or.inr hb')

/-- C4: `hitTest` returns the index of the first box in list (creation) order
whose display rectangle contains the point — every earlier box does not
contain it — and `none` exactly when no box contains it; in particular, for
two overlapping boxes A then B with the point inside both, it returns A's
index 0. -/
theorem hit_test_first_in_order (scale : ℚ) (boxes : List Box) (pt : ℤ × ℤ) :
    (∀ i : ℕ, box_under_disp_point scale boxes pt = some i ↔
       ∃ hi : i < boxes.length,
         containsDisp scale (boxes.get ⟨i, hi⟩) pt = true ∧
         ∀ b' ∈ boxes.take i, containsDisp scale b' pt = false) ∧
    (box_under_disp_point scale boxes pt = none ↔
       ∀ b ∈ boxes, containsDisp scale b pt = false) ∧
    (∀ A B : Box, containsDisp scale A pt = true →
       containsDisp scale B pt = true →
       box_under_disp_point scale [A, B] pt = some 0) :=
  ⟨fun i => box_under_some_iff scale pt boxes i,
   box_under_none_iff scale pt boxes,
   fun A _ hA _ => by
     simp [box_under_disp_point, box_under_aux, hA]⟩

/-- C4 witness: `hit_test_first_in_order` on the two overlapping boxes
`[0,0,5,5]` and `[1,1,5,5]` at scale 1 with the point `(2,2)` inside both:
the hit test returns index 0, the first-created box. -/
theorem hit_test_first_in_order_witness :
    box_under_disp_point 1 [⟨0, 0, 5, 5⟩, ⟨1, 1, 5, 5⟩] (2, 2) = some 0 :=
  (hit_test_first_in_order 1 [⟨0, 0, 5, 5⟩, ⟨1, 1, 5, 5⟩] (2, 2)).2.2
    ⟨0, 0, 5, 5⟩ ⟨1, 1, 5, 5⟩
    (by simp only [containsDisp, orig_to_disp_one]; decide)
    (by simp only [containsDisp, orig_to_disp_one]; decide)

theorem disp_to_orig_mem (scale : ℚ) (hs : scale ≠ 0) (w_orig h_orig : ℤ)
    (hw : 1 ≤ w_orig) (hh : 1 ≤ h_orig) (pt : ℤ × ℤ) :
    0 ≤ (disp_to_orig scale w_orig h_orig pt).1 ∧
    (disp_to_orig scale w_orig h_orig pt).1 ≤ w_orig - 1 ∧
    0 ≤ (disp_to_orig scale w_orig h_orig pt).2 ∧
    (disp_to_orig scale w_orig h_orig pt).2 ≤ h_orig - 1 := by
  simp only [disp_to_orig, if_neg hs]
  refine ⟨?_, ?_, ?_, ?_⟩ <;> omega

/-- C8: with a nonzero scale and positive image dimensions, every box appended
by `endDrag` satisfies `0 ≤ x`, `0 ≤ y`, `x + w ≤ width - 1` and
`y + h ≤ height - 1` — both corners lie within `[0,width) x [0,height)` —
because both drag endpoints are clamped at creation time. -/
theorem endDrag_box_in_bounds (scale : ℚ) (w_orig h_orig : ℤ)
    (hs : scale ≠ 0) (hw : 1 ≤ w_orig) (hh : 1 ≤ h_orig) (boxes : List Box)
    (sd ed : ℤ × ℤ) (b : Box)
    (hb : b ∈ add_box_from_disp scale w_orig h_orig boxes sd ed) :
    b ∈ boxes ∨
      (0 ≤ b.x ∧ 0 ≤ b.y ∧ b.x + b.w ≤ w_orig - 1 ∧ b.y + b.h ≤ h_orig - 1) := by
  have h0 := disp_to_orig_mem scale hs w_orig h_orig hw hh sd
  have h1 := disp_to_orig_mem scale hs w_orig h_orig hw hh ed
  simp only [add_box_from_disp] at hb
  split_ifs at hb with hdeg
  · exact Or.inl hb
  · rcases List.mem_append.mp hb with hmem | hmem
    · exact Or.inl hmem
    · right
      rw [List.mem_singleton] at hmem
      subst hmem
      dsimp only
      rcases abs_cases ((disp_to_orig scale w_orig h_orig ed).1 -
          (disp_to_orig scale w_orig h_orig sd).1) with ⟨he1, _⟩ | ⟨he1, _⟩ <;>
        rcases abs_cases ((disp_to_orig scale w_orig h_orig ed).2 -
            (disp_to_orig scale w_orig h_orig sd).2) with ⟨he2, _⟩ | ⟨he2, _⟩ <;>
          rw [he1, he2] <;> omega

/-- C8 witness: `endDrag_box_in_bounds` at scale 1 on a 10 x 10 image for the
drag `(1,1)` to `(3,4)`, which appends the box `[1,1,2,3]`. -/
theorem endDrag_box_in_bounds_witness :
    ((1 : ℚ) ≠ 0) ∧
    ((⟨1, 1, 2, 3⟩ : Box) ∈ ([] : List Box) ∨
      (0 ≤ (⟨1, 1, 2, 3⟩ : Box).x ∧ 0 ≤ (⟨1, 1, 2, 3⟩ : Box).y ∧
       (⟨1, 1, 2, 3⟩ : Box).x + (⟨1, 1, 2, 3⟩ : Box).w ≤ 10 - 1 ∧
       (⟨1, 1, 2, 3⟩ : Box).y + (⟨1, 1, 2, 3⟩ : Box).h ≤ 10 - 1)) :=
  ⟨one_ne_zero,
   endDrag_box_in_bounds 1 10 10 one_ne_zero (by decide) (by decide) [] (1, 1)
     (3, 4) ⟨1, 1, 2, 3⟩
     (by
       have e1 := disp_to_orig_one 10 10 (1, 1) (by decide) (by decide)
         (by decide) (by decide)
       have e2 := disp_to_orig_one 10 10 (3, 4) (by decide) (by decide)
         (by decide) (by decide)
       simp only [add_box_from_disp, e1, e2]
       decide)⟩
